import Mathlib

/-!
A shallow embedding of the RNA secondary-structure module of the repository
(`src/lib/rna-utils.ts`) together with proofs settling the frozen claims about
its specification.

Modelling conventions:
* JavaScript strings become `String`/`List Char`; per-character
  `toUpperCase` becomes `Char.toUpper` (they agree on the relevant alphabet).
* The two `n × n` matrices `dp` and `traceback` become one finite map
  `Nat → Nat → Nat × Cell`, built by folds that mirror the source's loops
  (`l` from 4 to `n-1`, `i` from 0 to `n-l-1`) exactly; unwritten cells hold
  `(0, Cell.mt)` just as the source initialises the matrices with `0` / `''`.
* The traceback-cell strings `''`, `'L'`, `'R'`, `'P'`, `k.toString()` become
  the inductive `Cell` (`mt`, `L`, `R`, `P`, `K k`).
* The recursive `traceStructure` is not structurally terminating in the
  source (this is the central finding: see `traceAux_none_of_lt`), so it is
  embedded with an explicit recursion-depth budget (`fuel`); `none` means the
  JavaScript call never returns (the engine raises a stack-overflow
  `RangeError`).  JavaScript index arithmetic can produce `NaN`
  (`parseInt('')`), so trace indices are `Option Int` with `none` = `NaN`:
  `NaN` comparisons are false and `NaN + 1 = NaN`.
-/

namespace RnaUtils

/-- The `pairs` record of the source's `canPair`:
`{'A': 'U', 'U': 'A', 'G': 'C', 'C': 'G'}`; lookup of a key that is absent
yields `undefined`, i.e. `none`. -/
def pairsLookup (c : Char) : Option Char :=
  if c = 'A' then some 'U'
  else if c = 'U' then some 'A'
  else if c = 'G' then some 'C'
  else if c = 'C' then some 'G'
  else none

/-- Source `canPair(a, b)`: `pairs[a.toUpperCase()] === b.toUpperCase()`
(`undefined === x` is false for every character `x`). -/
def canPair (a b : Char) : Bool :=
  decide (pairsLookup a.toUpper = some b.toUpper)

/-- One cell of the `traceback` string matrix: `''`, `'L'`, `'R'`, `'P'` or
`k.toString()`. -/
inductive Cell where
  | mt : Cell
  | L : Cell
  | R : Cell
  | P : Cell
  | K : Nat → Cell
deriving DecidableEq, Repr

/-- One conditional overwrite
`if (dp[i][j] < v) { dp[i][j] = v; traceback[i][j] = c; }` of the source's
fill. -/
def maxUpd (acc : Nat × Cell) (v : Nat) (c : Cell) : Nat × Cell :=
  if acc.1 < v then (v, c) else acc

/-- Cases 1-3 of the fill (source lines 35-51): start from
`(dp[i+1][j], 'L')`, overwrite with the unpair-`j` case, then with the pair
case when `canPair(seq[i], seq[j]) && j - i > 3`. -/
def cellBase (seq : List Char) (t : Nat → Nat → Nat × Cell) (i j : Nat) :
    Nat × Cell :=
  if canPair (seq.getD i '*') (seq.getD j '*') ∧ 3 < j - i then
    maxUpd (maxUpd ((t (i+1) j).1, Cell.L) (t i (j-1)).1 Cell.R)
      ((t (i+1) (j-1)).1 + 1) Cell.P
  else maxUpd ((t (i+1) j).1, Cell.L) (t i (j-1)).1 Cell.R

/-- The per-cell computation of the Nussinov fill (source lines 35-59):
cases 1-3 followed by the bifurcation scan `k = i+1 .. j-1` (case 4), each
overwrite taken only when strictly better.  `t` is the table of
already-filled cells. -/
def cellCalc (seq : List Char) (t : Nat → Nat → Nat × Cell) (i j : Nat) :
    Nat × Cell :=
  (List.range' (i+1) (j - (i+1))).foldl
    (fun acc k => maxUpd acc ((t i k).1 + (t (k+1) j).1) (Cell.K k))
    (cellBase seq t i j)

/-- Functional update of the table at one cell. -/
def updCell (t : Nat → Nat → Nat × Cell) (i j : Nat) (v : Nat × Cell) :
    Nat → Nat → Nat × Cell :=
  fun a b => if a = i ∧ b = j then v else t a b

/-- Source inner loop `for (let i = 0; i < n - l; i++)` with `j = i + l`. -/
def fillRow (seq : List Char) (l : Nat) (t0 : Nat → Nat → Nat × Cell) :
    Nat → Nat → Nat × Cell :=
  (List.range (seq.length - l)).foldl
    (fun t i => updCell t i (i+l) (cellCalc seq t i (i+l))) t0

/-- Source outer loop `for (let l = 4; l < n; l++)`; the matrices start as
all-`0` / all-`''`. -/
def fillTable (seq : List Char) : Nat → Nat → Nat × Cell :=
  (List.range' 4 (seq.length - 4)).foldl (fun t l => fillRow seq l t)
    (fun _ _ => (0, Cell.mt))

/-- JavaScript `i >= j` on trace indices; any comparison with `NaN` is
false. -/
def jsGe : Option Int → Option Int → Bool
  | some a, some b => decide (b ≤ a)
  | _, _ => false

/-- JavaScript `i + 1` (`NaN + 1 = NaN`). -/
def idxAdd1 : Option Int → Option Int :=
  Option.map (· + 1)

/-- JavaScript `j - 1` (`NaN - 1 = NaN`). -/
def idxSub1 : Option Int → Option Int :=
  Option.map (· - 1)

/-- The read `traceback[i][j]` of the source's trace: when both indices are
integers inside `[0, n)` it yields the stored cell together with the `Nat`
values of the indices; every other access yields no cell (`undefined` for an
out-of-range column or a `NaN` column; a `NaN`/out-of-range row would throw in
JavaScript, but `predictRnaStructure` never reaches such a read because the
preceding sibling call already fails to return: see `traceAux_nan`). -/
def tbLookup (T : Nat → Nat → Cell) (n : Nat) :
    Option Int → Option Int → Option (Nat × Nat × Cell)
  | some a, some b =>
    if 0 ≤ a ∧ a < (n : Int) ∧ 0 ≤ b ∧ b < (n : Int) then
      some (a.toNat, b.toNat, T a.toNat b.toNat)
    else none
  | _, _ => none

/-- The mutable trace state: the dot-bracket character buffer and the `pairs`
array. -/
structure TraceSt where
  db : List Char
  prs : List (Nat × Nat)
deriving DecidableEq, Repr

/-- Source `traceStructure(i, j)` (lines 67-87) with an explicit recursion
budget.  `none` means the budget ran out, i.e. the JavaScript call does not
return at this depth; `traceAux_none_of_lt` shows this happens at every
depth whenever `i < j`.  The final catch-all branch is the source's `else`
branch reached with `tb` equal to `''` or `undefined`: there
`k = parseInt(tb) = NaN`, so the two recursive calls are
`traceStructure(i, NaN)` and `traceStructure(NaN + 1, j)`. -/
def traceAux (T : Nat → Nat → Cell) (n : Nat) :
    Nat → Option Int → Option Int → TraceSt → Option TraceSt
  | 0, _, _, _ => none
  | fuel+1, i, j, st =>
    if jsGe i j then some st
    else
      match tbLookup T n i j with
      | some (_, _, Cell.L) => traceAux T n fuel (idxAdd1 i) j st
      | some (_, _, Cell.R) => traceAux T n fuel i (idxSub1 j) st
      | some (a, b, Cell.P) =>
        traceAux T n fuel (idxAdd1 i) (idxSub1 j)
          ⟨(st.db.set a '(').set b ')', st.prs ++ [(a, b)]⟩
      | some (_, _, Cell.K k) =>
        match traceAux T n fuel i (some (k : Int)) st with
        | none => none
        | some s1 => traceAux T n fuel (some ((k : Int) + 1)) j s1
      | _ =>
        match traceAux T n fuel i none st with
        | none => none
        | some s1 => traceAux T n fuel none j s1

/-- The record returned by `predictRnaStructure`. -/
structure RnaResult where
  dotBracket : List Char
  pairs : List (Nat × Nat)
  mfe : Int
deriving DecidableEq, Repr

/-- Source `predictRnaStructure(rna)` (lines 18-96): uppercase, fill the DP
and traceback matrices, run `traceStructure(0, n-1)` on the all-`'.'` buffer,
and score `-pairs.length * 2`.  The extra `fuel` argument bounds the trace
recursion depth; `none` is a call that never returns. -/
def predictRnaStructure (rna : String) (fuel : Nat) : Option RnaResult :=
  let seq := rna.data.map Char.toUpper
  let n := seq.length
  let t := fillTable seq
  match traceAux (fun a b => (t a b).2) n fuel (some 0) (some ((n : Int) - 1))
      ⟨List.replicate n '.', []⟩ with
  | none => none
  | some st => some ⟨st.db, st.prs, -(st.prs.length : Int) * 2⟩

/-- The trace recursion with the single missing base case restored: a cell
that was never written (`''`, spans shorter than the minimum loop) ends the
recursion instead of feeding `NaN` indices back into it.  This is not the
source; it documents what the source's comments and the specification
describe, and is used only as supporting evidence that the published example
outputs are the intended ones. -/
def traceAuxFixed (T : Nat → Nat → Cell) (n : Nat) :
    Nat → Option Int → Option Int → TraceSt → Option TraceSt
  | 0, _, _, _ => none
  | fuel+1, i, j, st =>
    if jsGe i j then some st
    else
      match tbLookup T n i j with
      | some (_, _, Cell.L) => traceAuxFixed T n fuel (idxAdd1 i) j st
      | some (_, _, Cell.R) => traceAuxFixed T n fuel i (idxSub1 j) st
      | some (a, b, Cell.P) =>
        traceAuxFixed T n fuel (idxAdd1 i) (idxSub1 j)
          ⟨(st.db.set a '(').set b ')', st.prs ++ [(a, b)]⟩
      | some (_, _, Cell.K k) =>
        match traceAuxFixed T n fuel i (some (k : Int)) st with
        | none => none
        | some s1 => traceAuxFixed T n fuel (some ((k : Int) + 1)) j s1
      | _ => some st

/-- Variant of `predictRnaStructure` with the repaired trace recursion;
supporting evidence only. -/
def predictRnaStructureFixed (rna : String) (fuel : Nat) : Option RnaResult :=
  let seq := rna.data.map Char.toUpper
  let n := seq.length
  let t := fillTable seq
  match traceAuxFixed (fun a b => (t a b).2) n fuel (some 0)
      (some ((n : Int) - 1)) ⟨List.replicate n '.', []⟩ with
  | none => none
  | some st => some ⟨st.db, st.prs, -(st.prs.length : Int) * 2⟩

/-- A pseudo-probability entry `{ i, j, probability }` of
`calculatePairingProbabilities`.  The source computes the probability in
IEEE double precision; the model uses the same formula over `ℝ` (the inputs
concerned never sit near the `0.1` threshold within double rounding). -/
structure PairProb where
  i : Nat
  j : Nat
  probability : ℝ

section

open scoped Classical

/-- The heuristic confidence `Math.min(0.7, 0.9 * Math.exp(-distance / 30))`
(source line 123). -/
noncomputable def altProb (distance : Nat) : ℝ :=
  min (7/10 : ℝ) ((9/10) * Real.exp (-(distance : ℝ) / 30))

/-- Source `calculatePairingProbabilities(rna)` (lines 99-135): run the
predictor, emit its pairs at probability `0.95`, then scan all `(i, j)` with
`i < n - 4`, `i + 4 ≤ j < n`, keeping complementary non-structure pairs whose
heuristic confidence exceeds `0.1`.  The call inherits the predictor's
recursion budget: `none` is a call that never returns. -/
noncomputable def calculatePairingProbabilities (rna : String) (fuel : Nat) :
    Option (List PairProb) :=
  match predictRnaStructure (String.mk (rna.data.map Char.toUpper)) fuel with
  | none => none
  | some res =>
    let seq := rna.data.map Char.toUpper
    let n := seq.length
    some ((List.range (n - 4)).foldl (fun acc i =>
      (List.range' (i+4) (n - (i+4))).foldl (fun acc2 j =>
        if canPair (seq.getD i '*') (seq.getD j '*')
            ∧ (¬ res.pairs.any fun p => p.1 == i && p.2 == j)
            ∧ (1/10 : ℝ) < altProb (j - i) then
          acc2 ++ [PairProb.mk i j (altProb (j - i))]
        else acc2) acc)
      (res.pairs.map fun p => PairProb.mk p.1 p.2 (95/100 : ℝ)))

end

/-- Source `generateMountainPlot` loop (lines 166-173): update the height,
then push `(i, height)`. -/
def mountainAux : List Char → Nat → Int → List (Nat × Int)
  | [], _, _ => []
  | c :: rest, idx, h =>
    let h' : Int := if c = '(' then h + 1 else if c = ')' then h - 1 else h
    (idx, h') :: mountainAux rest (idx + 1) h'

/-- Source `generateMountainPlot(dotBracket)` (lines 160-176). -/
def generateMountainPlot (dotBracket : String) : List (Nat × Int) :=
  mountainAux dotBracket.data 0 0

/-! Definitions taken from the specification's words, used to state the
claims (running bracket balance, well-formedness of dot-bracket strings, and
the serialization of a pair list described by the round-trip claim). -/

/-- Contribution of one character to the running bracket balance. -/
def bracketDelta (c : Char) : Int :=
  if c = '(' then 1 else if c = ')' then -1 else 0

/-- Running balance (count of `'('` minus `')'`) of a character list. -/
def balance (l : List Char) : Int :=
  l.foldl (fun h c => h + bracketDelta c) 0

/-- A well-formed dot-bracket string: no prefix has negative balance and the
whole string balances to zero. -/
def dbWellFormed (l : List Char) : Prop :=
  (∀ m, m ≤ l.length → 0 ≤ balance (l.take m)) ∧ balance l = 0

instance (l : List Char) : Decidable (dbWellFormed l) :=
  inferInstanceAs
    (Decidable ((∀ m, m ≤ l.length → 0 ≤ balance (l.take m)) ∧ balance l = 0))

/-- The serialization described by the round-trip claim: `'('` at each
pair's lower index, `')'` at its upper index, `'.'` elsewhere. -/
def serializePairs (n : Nat) (prs : List (Nat × Nat)) : List Char :=
  (List.range n).map fun idx =>
    if prs.any fun p => min p.1 p.2 == idx then '('
    else if prs.any fun p => max p.1 p.2 == idx then ')'
    else '.'

/-! Invariants of the filled traceback table. -/

lemma foldl_preserve {α β : Type _} (P : β → Prop) (f : β → α → β) :
    ∀ (l : List α) (acc : β), P acc → (∀ a ∈ l, ∀ b, P b → P (f b a)) →
      P (l.foldl f acc)
  | [], _, h, _ => h
  | a :: l, acc, h, hstep => by
    simp only [List.foldl_cons]
    exact foldl_preserve P f l (f acc a) (hstep a (by simp) acc h)
      fun x hx b hb => hstep x (by simp [hx]) b hb

lemma maxUpd_cell (acc : Nat × Cell) (v : Nat) (c : Cell) :
    (maxUpd acc v c).2 = c ∨ (maxUpd acc v c).2 = acc.2 := by
  unfold maxUpd; split_ifs <;> simp

lemma cellBase_cell (seq : List Char) (t : Nat → Nat → Nat × Cell)
    (i j : Nat) :
    (cellBase seq t i j).2 = Cell.L ∨ (cellBase seq t i j).2 = Cell.R ∨
      (cellBase seq t i j).2 = Cell.P := by
  unfold cellBase
  split_ifs
  · rcases maxUpd_cell (maxUpd ((t (i+1) j).1, Cell.L) (t i (j-1)).1 Cell.R)
      ((t (i+1) (j-1)).1 + 1) Cell.P with h | h
    · exact Or.inr (Or.inr h)
    · rcases maxUpd_cell ((t (i+1) j).1, Cell.L) (t i (j-1)).1 Cell.R
        with h2 | h2
      · exact Or.inr (Or.inl (h.trans h2))
      · exact Or.inl (h.trans h2)
  · rcases maxUpd_cell ((t (i+1) j).1, Cell.L) (t i (j-1)).1 Cell.R with h | h
    · exact Or.inr (Or.inl h)
    · exact Or.inl h

lemma foldl_maxUpd_cell (P : Cell → Prop) (t : Nat → Nat → Nat × Cell)
    (i j : Nat) :
    ∀ (l : List Nat) (acc : Nat × Cell), P acc.2 →
      (∀ k ∈ l, P (Cell.K k)) →
      P ((l.foldl
        (fun acc k => maxUpd acc ((t i k).1 + (t (k+1) j).1) (Cell.K k))
        acc).2)
  | [], _, h, _ => h
  | k :: l, acc, h, hks => by
    simp only [List.foldl_cons]
    apply foldl_maxUpd_cell P t i j l
    · rcases maxUpd_cell acc ((t i k).1 + (t (k+1) j).1) (Cell.K k)
        with hh | hh
      · rw [hh]; exact hks k (by simp)
      · rw [hh]; exact h
    · exact fun x hx => hks x (by simp [hx])

lemma cellCalc_cell (seq : List Char) (t : Nat → Nat → Nat × Cell)
    (i j : Nat) :
    (cellCalc seq t i j).2 = Cell.L ∨ (cellCalc seq t i j).2 = Cell.R ∨
      (cellCalc seq t i j).2 = Cell.P ∨
      ∃ k, i + 1 ≤ k ∧ k < j ∧ (cellCalc seq t i j).2 = Cell.K k := by
  unfold cellCalc
  apply foldl_maxUpd_cell
    (fun c => c = Cell.L ∨ c = Cell.R ∨ c = Cell.P ∨
      ∃ k, i + 1 ≤ k ∧ k < j ∧ c = Cell.K k)
  · rcases cellBase_cell seq t i j with h | h | h
    · exact Or.inl h
    · exact Or.inr (Or.inl h)
    · exact Or.inr (Or.inr (Or.inl h))
  · intro k hk
    rcases List.mem_range'_1.mp hk with ⟨hk1, hk2⟩
    exact Or.inr (Or.inr (Or.inr ⟨k, by omega, by omega, rfl⟩))

/-- The invariant the trace-divergence argument needs: a directional or pair
cell is only ever written at spans of at least 4, and a bifurcation cell
`K k` only with `i < k < j`. -/
def TblInv (t : Nat → Nat → Nat × Cell) : Prop :=
  ∀ a b,
    (((t a b).2 = Cell.L ∨ (t a b).2 = Cell.R ∨ (t a b).2 = Cell.P) →
      a + 4 ≤ b) ∧
    ∀ k, (t a b).2 = Cell.K k → a + 1 ≤ k ∧ k < b

lemma tblInv_init : TblInv (fun _ _ => (0, Cell.mt)) := by
  intro a b
  refine ⟨?_, ?_⟩
  · rintro (h | h | h) <;> simp at h
  · intro k h; simp at h

lemma tblInv_upd (seq : List Char) {t : Nat → Nat → Nat × Cell}
    (ht : TblInv t) {l : Nat} (hl : 4 ≤ l) (i : Nat) :
    TblInv (updCell t i (i+l) (cellCalc seq t i (i+l))) := by
  intro a b
  unfold updCell
  by_cases hab : a = i ∧ b = i + l
  · rw [if_pos hab]
    obtain ⟨h1, h2⟩ := hab
    rcases cellCalc_cell seq t i (i+l) with h | h | h | ⟨k, hk1, hk2, hk3⟩
    · refine ⟨fun _ => by omega, fun k hk => ?_⟩
      rw [h] at hk; exact absurd hk (by simp)
    · refine ⟨fun _ => by omega, fun k hk => ?_⟩
      rw [h] at hk; exact absurd hk (by simp)
    · refine ⟨fun _ => by omega, fun k hk => ?_⟩
      rw [h] at hk; exact absurd hk (by simp)
    · refine ⟨fun hc => ?_, fun k' hk' => ?_⟩
      · rcases hc with hc | hc | hc <;>
          (rw [hk3] at hc; exact absurd hc (by simp))
      · rw [hk3] at hk'
        have hkk : k = k' := by injection hk'
        omega
  · rw [if_neg hab]; exact ht a b

lemma tblInv_fillRow (seq : List Char) {t : Nat → Nat → Nat × Cell}
    (ht : TblInv t) {l : Nat} (hl : 4 ≤ l) : TblInv (fillRow seq l t) := by
  unfold fillRow
  exact foldl_preserve TblInv _ _ _ ht fun i _ t' ht' => tblInv_upd seq ht' hl i

lemma tblInv_fillTable (seq : List Char) : TblInv (fillTable seq) := by
  unfold fillTable
  refine foldl_preserve TblInv _ _ _ tblInv_init fun l hl t' ht' => ?_
  exact tblInv_fillRow seq ht' (List.mem_range'_1.mp hl).1

/-! Divergence of the trace recursion. -/

lemma traceAux_zero (T : Nat → Nat → Cell) (n : Nat) (i j : Option Int)
    (st : TraceSt) : traceAux T n 0 i j st = none := rfl

lemma traceAux_succ (T : Nat → Nat → Cell) (n : Nat) (f : Nat)
    (i j : Option Int) (st : TraceSt) :
    traceAux T n (f+1) i j st =
      (if jsGe i j then some st
      else
        match tbLookup T n i j with
        | some (_, _, Cell.L) => traceAux T n f (idxAdd1 i) j st
        | some (_, _, Cell.R) => traceAux T n f i (idxSub1 j) st
        | some (a, b, Cell.P) =>
          traceAux T n f (idxAdd1 i) (idxSub1 j)
            ⟨(st.db.set a '(').set b ')', st.prs ++ [(a, b)]⟩
        | some (_, _, Cell.K k) =>
          match traceAux T n f i (some (k : Int)) st with
          | none => none
          | some s1 => traceAux T n f (some ((k : Int) + 1)) j s1
        | _ =>
          match traceAux T n f i none st with
          | none => none
          | some s1 => traceAux T n f none j s1) := rfl

lemma traceAux_nan (T : Nat → Nat → Cell) (n : Nat) :
    ∀ (fuel : Nat) (i : Option Int) (st : TraceSt),
      traceAux T n fuel i none st = none := by
  intro fuel
  induction fuel with
  | zero => intro i st; rfl
  | succ f ih =>
    intro i st
    have hg : jsGe i none = false := by cases i <;> rfl
    have hlk : tbLookup T n i none = none := by cases i <;> rfl
    rw [traceAux_succ, hg, hlk]
    simp only [Bool.false_eq_true, if_false]
    show (match traceAux T n f i none st with
      | none => none
      | some s1 => traceAux T n f none none s1) = none
    rw [ih i st]

lemma traceAux_none_of_lt (T : Nat → Nat → Cell) (n : Nat)
    (hlrp : ∀ p q, (T p q = Cell.L ∨ T p q = Cell.R ∨ T p q = Cell.P) →
      p + 4 ≤ q)
    (hks : ∀ p q k, T p q = Cell.K k → p + 1 ≤ k ∧ k < q) :
    ∀ (fuel : Nat) (a b : Int) (st : TraceSt), a < b →
      traceAux T n fuel (some a) (some b) st = none := by
  intro fuel
  induction fuel with
  | zero => intro a b st _; rfl
  | succ f ih =>
    intro a b st hab
    have hg : jsGe (some a) (some b) = false := by
      simp only [jsGe, decide_eq_false_iff_not]; omega
    by_cases hin : 0 ≤ a ∧ a < (n : Int) ∧ 0 ≤ b ∧ b < (n : Int)
    · have hlk : tbLookup T n (some a) (some b) =
          some (a.toNat, b.toNat, T a.toNat b.toNat) := by
        simp [tbLookup, hin]
      rcases hc : T a.toNat b.toNat with _ | _ | _ | _ | k
      · rw [traceAux_succ, hg, hlk, hc]
        simp only [Bool.false_eq_true, if_false]
        show (match traceAux T n f (some a) none st with
          | none => none
          | some s1 => traceAux T n f none (some b) s1) = none
        rw [traceAux_nan]
      · have hb : a.toNat + 4 ≤ b.toNat := hlrp _ _ (Or.inl hc)
        rw [traceAux_succ, hg, hlk, hc]
        simp only [Bool.false_eq_true, if_false]
        exact ih (a + 1) b st (by omega)
      · have hb : a.toNat + 4 ≤ b.toNat := hlrp _ _ (Or.inr (Or.inl hc))
        rw [traceAux_succ, hg, hlk, hc]
        simp only [Bool.false_eq_true, if_false]
        exact ih a (b - 1) st (by omega)
      · have hb : a.toNat + 4 ≤ b.toNat := hlrp _ _ (Or.inr (Or.inr hc))
        rw [traceAux_succ, hg, hlk, hc]
        simp only [Bool.false_eq_true, if_false]
        exact ih (a + 1) (b - 1) _ (by omega)
      · have hkb : a.toNat + 1 ≤ k ∧ k < b.toNat := hks _ _ _ hc
        rw [traceAux_succ, hg, hlk, hc]
        simp only [Bool.false_eq_true, if_false]
        show (match traceAux T n f (some a) (some (k : Int)) st with
          | none => none
          | some s1 => traceAux T n f (some ((k : Int) + 1)) (some b) s1) =
            none
        rw [ih a (k : Int) st (by omega)]
    · have hlk : tbLookup T n (some a) (some b) = none := by
        simp [tbLookup, hin]
      rw [traceAux_succ, hg, hlk]
      simp only [Bool.false_eq_true, if_false]
      show (match traceAux T n f (some a) none st with
        | none => none
        | some s1 => traceAux T n f none (some b) s1) = none
      rw [traceAux_nan]

/-- One-step unfolding of `predictRnaStructure`. -/
lemma predictRnaStructure_def (rna : String) (fuel : Nat) :
    predictRnaStructure rna fuel =
      match traceAux
          (fun a b => (fillTable (rna.data.map Char.toUpper) a b).2)
          (rna.data.map Char.toUpper).length fuel (some 0)
          (some (((rna.data.map Char.toUpper).length : Int) - 1))
          ⟨List.replicate (rna.data.map Char.toUpper).length '.', []⟩ with
      | none => none
      | some st => some ⟨st.db, st.prs, -(st.prs.length : Int) * 2⟩ := rfl

/-- The central fact: `predictRnaStructure` never returns on any input of
length at least 2, at any recursion depth — the trace recursion reaches an
unwritten traceback cell, turns it into `NaN` indices via `parseInt('')`,
and recurses forever (a stack overflow in JavaScript). -/
lemma predict_none_of_two_le (rna : String) (fuel : Nat)
    (h2 : 2 ≤ rna.length) : predictRnaStructure rna fuel = none := by
  have hinv := tblInv_fillTable (rna.data.map Char.toUpper)
  have hlen : (rna.data.map Char.toUpper).length = rna.length := by
    rw [List.length_map]; rfl
  have hdiv := traceAux_none_of_lt
    (fun a b => (fillTable (rna.data.map Char.toUpper) a b).2)
    (rna.data.map Char.toUpper).length
    (fun p q h => (hinv p q).1 h) (fun p q k h => (hinv p q).2 k h)
    fuel 0 (((rna.data.map Char.toUpper).length : Int) - 1)
    ⟨List.replicate (rna.data.map Char.toUpper).length '.', []⟩
    (by rw [hlen]; omega)
  rw [predictRnaStructure_def, hdiv]

/-- Characterization of every returning call: only inputs of length at most
1 return, and they return the empty structure. -/
lemma predict_some (rna : String) (fuel : Nat) (r : RnaResult)
    (h : predictRnaStructure rna fuel = some r) :
    rna.length ≤ 1 ∧ r = ⟨List.replicate rna.length '.', [], 0⟩ := by
  by_cases h2 : 2 ≤ rna.length
  · rw [predict_none_of_two_le rna fuel h2] at h; exact absurd h (by simp)
  · have h1 : rna.length ≤ 1 := by omega
    have hlen : (rna.data.map Char.toUpper).length = rna.length := by
      rw [List.length_map]; rfl
    refine ⟨h1, ?_⟩
    cases fuel with
    | zero =>
      have hz : predictRnaStructure rna 0 = none := rfl
      rw [hz] at h
      exact absurd h (by simp)
    | succ f =>
      have hg : jsGe (some 0)
          (some (((rna.data.map Char.toUpper).length : Int) - 1)) = true := by
        simp only [jsGe, decide_eq_true_eq]; rw [hlen]; omega
      have hpred : predictRnaStructure rna (f+1) =
          some ⟨List.replicate (rna.data.map Char.toUpper).length '.', [],
            -(([] : List (Nat × Nat)).length : Int) * 2⟩ := by
        rw [predictRnaStructure_def, traceAux_succ, if_pos hg]
      rw [hpred] at h
      obtain rfl := Option.some.inj h
      rw [hlen]
      simp

/-! Bracket-balance helpers. -/

lemma balance_shift (xs : List Char) :
    ∀ a : Int, xs.foldl (fun h c => h + bracketDelta c) a = a + balance xs := by
  induction xs with
  | nil => intro a; simp [balance]
  | cons c xs ih =>
    intro a
    simp only [balance, List.foldl_cons]
    rw [ih, ih (0 + bracketDelta c)]
    ring

lemma balance_cons (c : Char) (xs : List Char) :
    balance (c :: xs) = bracketDelta c + balance xs := by
  show (c :: xs).foldl (fun h c => h + bracketDelta c) 0 = _
  rw [List.foldl_cons, balance_shift]
  ring

lemma balance_replicate_dot (k : Nat) :
    balance (List.replicate k '.') = 0 := by
  induction k with
  | zero => rfl
  | succ k ih =>
    rw [List.replicate_succ, balance_cons, ih]
    rfl

lemma mountainStep_eq (c : Char) (h : Int) :
    (if c = '(' then h + 1 else if c = ')' then h - 1 else h) =
      h + bracketDelta c := by
  unfold bracketDelta
  split_ifs <;> ring

lemma mountainAux_spec (l : List Char) :
    ∀ (idx : Nat) (h : Int),
      (mountainAux l idx h).length = l.length ∧
      ∀ k (hk : k < (mountainAux l idx h).length),
        (mountainAux l idx h).get ⟨k, hk⟩ =
          (idx + k, h + balance (l.take (k+1))) := by
  induction l with
  | nil =>
    intro idx h
    exact ⟨rfl, fun k hk => absurd hk (by simp [mountainAux])⟩
  | cons c rest ih =>
    intro idx h
    constructor
    · simp only [mountainAux, List.length_cons]
      exact congrArg Nat.succ (ih (idx + 1) _).1
    · intro k hk
      match k with
      | 0 =>
        have hget : (mountainAux (c :: rest) idx h).get ⟨0, hk⟩ =
            (idx, if c = '(' then h + 1 else if c = ')' then h - 1 else h) :=
          rfl
        rw [hget, List.take_succ_cons, List.take_zero, balance_cons,
          mountainStep_eq]
        have hb : balance ([] : List Char) = 0 := rfl
        rw [hb]
        simp only [Prod.mk.injEq]
        exact ⟨by omega, by ring⟩
      | k + 1 =>
        have hk' : k < (mountainAux rest (idx + 1)
            (if c = '(' then h + 1 else if c = ')' then h - 1 else h)).length := by
          have hl := hk
          simp only [mountainAux, List.length_cons] at hl
          omega
        have hget : (mountainAux (c :: rest) idx h).get ⟨k + 1, hk⟩ =
            (mountainAux rest (idx + 1)
              (if c = '(' then h + 1 else if c = ')' then h - 1 else h)).get
              ⟨k, hk'⟩ := rfl
        rw [hget, (ih (idx + 1) _).2 k hk', List.take_succ_cons, balance_cons,
          mountainStep_eq]
        simp only [Prod.mk.injEq]
        exact ⟨by omega, by ring⟩

/-! Supporting evidence: the repaired trace reproduces the outputs the
specification's examples publish. -/

set_option maxRecDepth 400000 in
lemma predictFixed_AAAA :
    predictRnaStructureFixed "AAAA" 5 =
      some ⟨List.replicate 4 '.', [], 0⟩ := by decide

set_option maxRecDepth 400000 in
lemma predictFixed_GGGAAAUCCC :
    predictRnaStructureFixed "GGGAAAUCCC" 20 =
      some ⟨['(', '(', '(', '.', '.', '.', '.', ')', ')', ')'],
        [(0, 9), (1, 8), (2, 7)], -6⟩ := by decide

/-! Symmetry helper for the pairing predicate. -/

lemma pairsLookup_symm (x y : Char) :
    pairsLookup x = some y ↔ pairsLookup y = some x := by
  unfold pairsLookup
  constructor <;> intro h <;>
    (split_ifs at h with h1 h2 h3 h4 <;>
      (injection h with h; subst h; simp_all))

end RnaUtils

namespace RnaClaims

open RnaUtils

/-- C1: the specification says every `predictStructure` call completes and
returns a fully-formed result with no internal fatal error.  The code does
not: for every input of length at least 2 the trace recursion reaches an
unwritten (`''`) traceback cell, `parseInt('')` turns the split point into
`NaN`, and `traceStructure(i, NaN)` re-enters itself unboundedly — a stack
overflow.  This theorem evaluates the embedded code: no recursion budget
suffices on any such input. -/
theorem c1_predict_never_returns (rna : String) (fuel : Nat)
    (h : 2 ≤ rna.length) : predictRnaStructure rna fuel = none :=
  predict_none_of_two_le rna fuel h

theorem c1_predict_never_returns_witness :
    2 ≤ ("AA" : String).length ∧ predictRnaStructure "AA" 5 = none :=
  ⟨by decide, c1_predict_never_returns "AA" 5 (by decide)⟩

/-- C2: the specification says every sequence of length < 5 (e.g. `"AAAA"`)
yields zero pairs, an all-`'.'` dot-bracket string and score 0.  The code
instead never returns on `"AAAA"` (lengths 2-4 crash; only lengths 0 and 1
return the claimed empty structure): the trace starts at `(0, 3)`, an
unwritten cell, and recurses forever. -/
theorem c2_AAAA_diverges (fuel : Nat) :
    predictRnaStructure "AAAA" fuel = none :=
  predict_none_of_two_le "AAAA" fuel (by decide)

/-- C3: the specification publishes `"GGGAAAUCCC"` ⇒ pairs (0,9), (1,8),
(2,7), dot-bracket `"(((....)))"`, score -6.  The code never returns on this
input: the trace walks `(0,9) → (1,8) → (2,7)` through `'P'` cells and then
hits the unwritten cell `(3,6)`, after which it recurses forever.  (The
repaired trace produces exactly the published result: see
`RnaUtils.predictFixed_GGGAAAUCCC`.) -/
theorem c3_GGGAAAUCCC_diverges (fuel : Nat) :
    predictRnaStructure "GGGAAAUCCC" fuel = none :=
  predict_none_of_two_le "GGGAAAUCCC" fuel (by decide)

/-- C4: whenever `predictStructure` returns, every returned pair `(i, j)`
satisfies `i < j`, `j - i > 3`, complementarity of the bases at `i` and `j`,
and no index occurs in two pairs.  (Because of the divergence established in
C1, the only returning calls are inputs of length ≤ 1, whose pair list is
empty.) -/
theorem c4_pair_invariants (rna : String) (fuel : Nat) (r : RnaResult)
    (h : predictRnaStructure rna fuel = some r) :
    (∀ p ∈ r.pairs, p.1 < p.2 ∧ 3 < p.2 - p.1 ∧
      canPair (rna.data.getD p.1 '*') (rna.data.getD p.2 '*') = true) ∧
    List.Pairwise
      (fun p q => p.1 ≠ q.1 ∧ p.1 ≠ q.2 ∧ p.2 ≠ q.1 ∧ p.2 ≠ q.2) r.pairs := by
  obtain ⟨-, rfl⟩ := predict_some rna fuel r h
  exact ⟨fun p hp => absurd hp (by simp), by simp⟩

theorem c4_pair_invariants_witness :
    predictRnaStructure "A" 1 = some ⟨['.'], [], 0⟩ ∧
    ((∀ p ∈ (⟨['.'], [], 0⟩ : RnaResult).pairs, p.1 < p.2 ∧ 3 < p.2 - p.1 ∧
      canPair ("A".data.getD p.1 '*') ("A".data.getD p.2 '*') = true) ∧
    List.Pairwise (fun p q => p.1 ≠ q.1 ∧ p.1 ≠ q.2 ∧ p.2 ≠ q.1 ∧ p.2 ≠ q.2)
      (⟨['.'], [], 0⟩ : RnaResult).pairs) :=
  ⟨by decide, c4_pair_invariants "A" 1 ⟨['.'], [], 0⟩ (by decide)⟩

/-- C5: whenever `predictStructure` returns, the dot-bracket string has the
input's length, has equally many `'('` and `')'`, and its running balance is
never negative.  (Only length ≤ 1 inputs return; their dot-bracket is all
`'.'`.) -/
theorem c5_dotbracket_invariants (rna : String) (fuel : Nat) (r : RnaResult)
    (h : predictRnaStructure rna fuel = some r) :
    r.dotBracket.length = rna.length ∧
    r.dotBracket.count '(' = r.dotBracket.count ')' ∧
    ∀ m, 0 ≤ balance (r.dotBracket.take m) := by
  obtain ⟨-, rfl⟩ := predict_some rna fuel r h
  refine ⟨by simp, by simp [List.count_replicate], fun m => ?_⟩
  rw [List.take_replicate, balance_replicate_dot]

theorem c5_dotbracket_invariants_witness :
    predictRnaStructure "A" 1 = some ⟨['.'], [], 0⟩ ∧
    (⟨['.'], [], 0⟩ : RnaResult).dotBracket.length = ("A" : String).length :=
  ⟨by decide, (c5_dotbracket_invariants "A" 1 ⟨['.'], [], 0⟩ (by decide)).1⟩

/-- C6: whenever `predictStructure` returns, serializing its pair list
(`'('` at each pair's lower index, `')'` at its upper index, `'.'`
elsewhere) over the input's length reproduces the returned dot-bracket
string exactly. -/
theorem c6_roundtrip (rna : String) (fuel : Nat) (r : RnaResult)
    (h : predictRnaStructure rna fuel = some r) :
    serializePairs rna.length r.pairs = r.dotBracket := by
  obtain ⟨-, rfl⟩ := predict_some rna fuel r h
  show serializePairs rna.length [] = List.replicate rna.length '.'
  unfold serializePairs
  simp [List.map_const']

theorem c6_roundtrip_witness :
    predictRnaStructure "A" 1 = some ⟨['.'], [], 0⟩ ∧
    serializePairs ("A" : String).length
      (⟨['.'], [], 0⟩ : RnaResult).pairs =
      (⟨['.'], [], 0⟩ : RnaResult).dotBracket :=
  ⟨by decide, c6_roundtrip "A" 1 ⟨['.'], [], 0⟩ (by decide)⟩

/-- C7: whenever `predictStructure` returns, the score equals
`-2 * pairs.length` — this holds structurally (the returned record is built
with `mfe = -pairs.length * 2`), independent of which trace executions
return. -/
theorem c7_score (rna : String) (fuel : Nat) (r : RnaResult)
    (h : predictRnaStructure rna fuel = some r) :
    r.mfe = -2 * (r.pairs.length : Int) := by
  rw [predictRnaStructure_def] at h
  rcases htr : traceAux
      (fun a b => (fillTable (rna.data.map Char.toUpper) a b).2)
      (rna.data.map Char.toUpper).length fuel (some 0)
      (some (((rna.data.map Char.toUpper).length : Int) - 1))
      ⟨List.replicate (rna.data.map Char.toUpper).length '.', []⟩
    with _ | st
  · rw [htr] at h; exact absurd h (by simp)
  · rw [htr] at h
    obtain rfl := Option.some.inj h
    show -((st.prs.length : Int)) * 2 = -2 * (st.prs.length : Int)
    ring

theorem c7_score_witness :
    predictRnaStructure "A" 1 = some ⟨['.'], [], 0⟩ ∧
    (⟨['.'], [], 0⟩ : RnaResult).mfe =
      -2 * ((⟨['.'], [], 0⟩ : RnaResult).pairs.length : Int) :=
  ⟨by decide, c7_score "A" 1 ⟨['.'], [], 0⟩ (by decide)⟩

/-- C8: the specification says `pseudoProbabilityPairs` returns, for every
input, the structure pairs at confidence 0.95 plus the thresholded
distance-decayed alternatives.  The code never returns on any input of
length at least 2 (it calls `predictStructure`, which never returns there,
cf. C1); e.g. on `"AC"` it crashes where the claim promises the empty
list. -/
theorem c8_probabilities_diverge (fuel : Nat) :
    calculatePairingProbabilities "AC" fuel = none := by
  have hp : predictRnaStructure (String.mk ("AC".data.map Char.toUpper))
      fuel = none :=
    predict_none_of_two_le _ fuel (by decide)
  unfold calculatePairingProbabilities
  rw [hp]

/-- C9: the mountain profile emits one `(position, height)` point per
character in a left-to-right scan — the height after position `k` is the
running bracket balance of the prefix ending at `k` (starts at 0, +1 on
`'('`, -1 on `')'`, unchanged on `'.'`) — and on every well-formed
dot-bracket string every emitted height is non-negative. -/
theorem c9_mountain (db : String) :
    (generateMountainPlot db).length = db.length ∧
    (∀ k (hk : k < (generateMountainPlot db).length),
      (generateMountainPlot db).get ⟨k, hk⟩ =
        (k, balance (db.data.take (k+1)))) ∧
    (dbWellFormed db.data → ∀ p ∈ generateMountainPlot db, 0 ≤ p.2) := by
  obtain ⟨hlen, hget⟩ := mountainAux_spec db.data 0 0
  have hdef : generateMountainPlot db = mountainAux db.data 0 0 := rfl
  have hlen' : (generateMountainPlot db).length = db.length := by
    rw [hdef, hlen]; rfl
  refine ⟨hlen', ?_, ?_⟩
  · intro k hk
    have hk2 : k < (mountainAux db.data 0 0).length := by
      rw [hdef] at hk; exact hk
    show (mountainAux db.data 0 0).get ⟨k, hk2⟩ =
      (k, balance (db.data.take (k+1)))
    rw [hget k hk2]
    simp
  · intro hwf p hp
    rw [hdef] at hp
    obtain ⟨⟨k, hk⟩, rfl⟩ := List.mem_iff_get.mp hp
    rw [hget k hk]
    have hkle : k + 1 ≤ db.data.length := by
      rw [hlen] at hk; omega
    have hb := hwf.1 (k + 1) hkle
    simpa using hb

theorem c9_mountain_witness :
    dbWellFormed ("(.)" : String).data ∧
    (0 : Int) ≤ (((0 : Nat), (1 : Int)) : Nat × Int).2 :=
  ⟨by decide, (c9_mountain "(.)").2.2 (by decide) ((0 : Nat), (1 : Int))
    (by decide)⟩

/-- C10: the pairing predicate is symmetric — `canPair a b = canPair b a`
for all characters, because the lookup record pairs `A-U`, `U-A`, `G-C`,
`C-G` is itself symmetric. -/
theorem c10_canPair_symm (a b : Char) : canPair a b = canPair b a := by
  unfold canPair
  exact decide_eq_decide.mpr (pairsLookup_symm a.toUpper b.toUpper)

end RnaClaims
